import Mathlib

/-!
Shallow embedding of the task-selection and workflow core of the
long-running-agent framework (src/core/feature-manager.ts,
src/core/test-manager.ts, src/core/state-manager.ts,
src/core/backlog-manager.ts and the workflow engine), together with
theorems settling the frozen claims about that code.

Modelling conventions:
* JavaScript arrays are Lean lists; Array.prototype.filter / find / some
  are List.filter / List.find? / List.any.
* Array.prototype.sort is required by ES2019 to be stable; a sort with the
  comparator (a, b) => a.priority - b.priority is therefore the stable
  sort by ascending priority, embedded as List.insertionSort (which is
  stable: see the filter characterisation proved below).
* Date values and ISO timestamp strings are opaque String parameters
  (named now); wall-clock durations carry no logic and are omitted.
* The filesystem is explicit: a file that may be absent is an Option, a
  file that may be absent or unparseable is a small inductive; throwing
  code returns Except.
* In-place mutation of a record found inside an array (the pervasive
  pattern const x = arr.find(...); x.field = v) is embedded as
  updateFirst, which rewrites the first matching element only.
-/

namespace LRA


/-- Rewrites the first element satisfying p by g and keeps the rest;
this is how an in-place mutation of the record returned by
Array.prototype.find is observed through the containing array. -/
def updateFirst (p : α → Bool) (g : α → α) : List α → List α
  | [] => []
  | x :: xs => if p x then g x :: xs else x :: updateFirst p g xs

/-- Does the first list start with the second, on characters. -/
def charListHasPrefix : List Char → List Char → Bool
  | _, [] => true
  | [], _ :: _ => false
  | c :: cs, p :: ps => p = c && charListHasPrefix cs ps

/-- Does pat occur as a contiguous sublist of the first argument. -/
def charListIncludes (pat : List Char) : List Char → Bool
  | [] => charListHasPrefix [] pat
  | c :: rest => charListHasPrefix (c :: rest) pat || charListIncludes pat rest

/-- JavaScript String.prototype.includes: does pat occur as a substring of s. -/
def includesStr (s pat : String) : Bool := charListIncludes pat.data s.data

/-! ### Feature manager (src/core/feature-manager.ts) -/

/-- Feature record from feature-manager.ts (category kept as a plain string;
the Date-valued fields are ISO strings). -/
structure Feature where
  id : String
  category : String
  description : String
  steps : List String
  passes : Bool
  priority : Int
  dependencies : Option (List String)
  verificationNotes : Option String
  lastAttemptedAt : Option String
  completedAt : Option String
deriving DecidableEq, Repr

/-- FeatureList record from feature-manager.ts. -/
structure FeatureList where
  projectName : String
  createdAt : String
  updatedAt : String
  totalFeatures : Nat
  completedFeatures : Nat
  features : List Feature
deriving DecidableEq, Repr

/-- VerificationStep record from feature-manager.ts. -/
structure VerificationStep where
  step : String
  passed : Bool
  evidence : Option String
deriving DecidableEq, Repr

/-- areDependenciesMet: true when the feature has no dependency list (or an
empty one), otherwise every listed id must resolve to a feature of the list
and that feature must pass; an id naming no feature counts as unmet. -/
def areDependenciesMet (list : FeatureList) (feature : Feature) : Bool :=
  match feature.dependencies with
  | none => true
  | some deps =>
    if deps.isEmpty then true
    else deps.all fun depId =>
      match list.features.find? (fun f => f.id = depId) with
      | none => false
      | some depFeature => depFeature.passes

/-- The comparison used by the sort in getNextIncompleteFeature
((a, b) => a.priority - b.priority, ascending priority). -/
def byPriority (a b : Feature) : Prop := a.priority ≤ b.priority

instance : DecidableRel byPriority := fun a b => Int.decLe a.priority b.priority

instance : IsTotal Feature byPriority := ⟨fun a b => Int.le_total a.priority b.priority⟩

instance : IsTrans Feature byPriority := ⟨fun _ _ _ h h2 => le_trans h h2⟩

/-- getNextIncompleteFeature: filter to passes == false, stable-sort by
ascending priority, return the first whose dependencies are all met, and
fall back to the head of the sorted list when none qualifies. -/
def getNextIncompleteFeature (list : FeatureList) : Option Feature :=
  let incompleteFeatures :=
    (list.features.filter fun f => !f.passes).insertionSort byPriority
  if incompleteFeatures.isEmpty then
    none
  else
    match incompleteFeatures.find? (fun f => areDependenciesMet list f) with
    | some feature => some feature
    | none => incompleteFeatures.head?

/-- The selection algorithm exactly as the specification words it
(section 4.1): (1) filter to passes == false; (2) sort by ascending
priority, ties broken by original insertion order; (3) return the first
feature in that order whose dependencies are all satisfied; (4) if none
qualifies, return the first element of the priority-sorted list. -/
def specNextIncomplete (list : FeatureList) : Option Feature :=
  let sorted :=
    (list.features.filter fun f => !f.passes).insertionSort byPriority
  match sorted.find? (fun f => areDependenciesMet list f) with
  | some feature => some feature
  | none => sorted.head?

/-- saveFeatureList rebuilds the persisted FeatureList wholesale from the
feature array: both timestamps are set to now, the project name is
path.basename of the project root (passed here as projectName), and the
cached totals are recomputed, completedFeatures as the count of
passes == true. -/
def saveFeatureList (now projectName : String) (features : List Feature) : FeatureList :=
  { projectName := projectName
    createdAt := now
    updatedAt := now
    totalFeatures := features.length
    completedFeatures := (features.filter fun f => f.passes).length
    features := features }

/-- The step-by-step notes markFeatureComplete writes:
one line per verification step, joined with newlines. -/
def verificationNotesString (steps : List VerificationStep) : String :=
  String.intercalate "\n"
    (steps.map fun s => s.step ++ ": " ++ (if s.passed then "PASS" else "FAIL"))

/-- markFeatureComplete: throws when the id is unknown or any verification
step failed (embedded as Except.error carrying the exact message, thrown
before anything is mutated), otherwise flips passes on the found feature,
stamps completedAt, writes the concatenated notes and persists via
saveFeatureList (which recomputes the completed count). -/
def markFeatureComplete (now projectName : String) (list : FeatureList)
    (featureId : String) (verificationSteps : List VerificationStep) :
    Except String FeatureList :=
  match list.features.find? (fun f => f.id = featureId) with
  | none => .error ("Feature not found: " ++ featureId)
  | some _ =>
    if verificationSteps.all (fun s => s.passed) then
      let features := updateFirst (fun f => f.id = featureId)
        (fun f => { f with
          passes := true
          completedAt := some now
          verificationNotes := some (verificationNotesString verificationSteps) })
        list.features
      .ok (saveFeatureList now projectName features)
    else
      .error "Cannot mark feature as complete: not all verification steps passed"

/-- loadFeatureList: the in-memory cache wins; otherwise the file is read
and parsed with no existence check and no catch, so a missing file makes
the read error propagate to the caller (fs.promises.readFile rejects with
ENOENT).  The disk is an Option FeatureList: none is the missing file. -/
def loadFeatureList (cache disk : Option FeatureList) : Except String FeatureList :=
  match cache with
  | some l => .ok l
  | none =>
    match disk with
    | some l => .ok l
    | none => .error "ENOENT: no such file or directory"

/-- getIncompleteFeatureCount as called against the store: load, then count
the features with passes == false. -/
def getIncompleteFeatureCount (cache disk : Option FeatureList) : Except String Nat :=
  (loadFeatureList cache disk).map fun list =>
    (list.features.filter fun f => !f.passes).length

/-- getNextIncompleteFeature as called against the store: load, then run
the selection algorithm. -/
def getNextIncompleteFeatureM (cache disk : Option FeatureList) :
    Except String (Option Feature) :=
  (loadFeatureList cache disk).map getNextIncompleteFeature

/-- getFeature as called against the store: load, then find by id. -/
def getFeatureM (cache disk : Option FeatureList) (featureId : String) :
    Except String (Option Feature) :=
  (loadFeatureList cache disk).map fun list =>
    list.features.find? (fun f => f.id = featureId)

/-- markFeatureComplete as called against the store: load, then mutate and
persist. -/
def markFeatureCompleteM (now projectName : String) (cache disk : Option FeatureList)
    (featureId : String) (verificationSteps : List VerificationStep) :
    Except String FeatureList := do
  let list ← loadFeatureList cache disk
  markFeatureComplete now projectName list featureId verificationSteps

/-! ### Test manager (src/core/test-manager.ts) -/

/-- TestPriority enum from test-manager.ts. -/
inductive TestPriority
  | critical
  | high
  | medium
  | low
deriving DecidableEq, Repr

/-- TestCase record from test-manager.ts (category kept as a plain string). -/
structure TestCase where
  id : String
  category : String
  description : String
  steps : List String
  passes : Bool
  priority : TestPriority
  verified_at : Option String
  screenshot_path : Option String
  console_log_path : Option String
  notes : Option String
deriving DecidableEq, Repr

/-- TestSuite record from test-manager.ts. -/
structure TestSuite where
  version : String
  created_at : String
  updated_at : String
  total_tests : Nat
  passed_tests : Nat
  tests : List TestCase
deriving DecidableEq, Repr

def TESTS_VERSION : String := "1.0.0"

/-- saveSuite: refreshes updated_at and recomputes the cached totals before
writing the suite (the write itself is the stored value below). -/
def saveSuite (now : String) (suite : TestSuite) : TestSuite :=
  { suite with
    updated_at := now
    total_tests := suite.tests.length
    passed_tests := (suite.tests.filter fun t => t.passes).length }

/-- On-disk state of tests.json: absent, present but unparseable, or a
parsed suite. -/
inductive LedgerFile
  | missing
  | corrupt
  | stored (suite : TestSuite)
deriving DecidableEq, Repr

/-- The initialize method of TestManager: builds the empty versioned suite,
persists it through saveSuite, and returns it.  The pair is (returned
suite, new on-disk state). -/
def initializeSuite (now : String) : TestSuite × LedgerFile :=
  let suite := saveSuite now
    { version := TESTS_VERSION
      created_at := now
      updated_at := now
      total_tests := 0
      passed_tests := 0
      tests := [] }
  (suite, .stored suite)

/-- loadSuite: a missing file, or a file whose JSON.parse throws, falls
back to initialize — which writes a fresh empty suite over the target
path.  Only a parseable file leaves the disk untouched. -/
def loadSuite (now : String) : LedgerFile → TestSuite × LedgerFile
  | .missing => initializeSuite now
  | .corrupt => initializeSuite now
  | .stored suite => (suite, .stored suite)

/-- getTest: load (possibly re-initializing the store), then find by id. -/
def getTest (now testId : String) (file : LedgerFile) :
    Option TestCase × LedgerFile :=
  let (suite, file') := loadSuite now file
  (suite.tests.find? (fun t => t.id = testId), file')

/-- getFailingTests: load, then filter to passes == false. -/
def getFailingTests (now : String) (file : LedgerFile) :
    List TestCase × LedgerFile :=
  let (suite, file') := loadSuite now file
  (suite.tests.filter (fun t => !t.passes), file')

/-- The fixed priority scan order of getNextTest. -/
def testPriorityOrder : List TestPriority :=
  [.critical, .high, .medium, .low]

/-- getNextTest: load, filter to failing, scan critical, high, medium, low
for the first failing test of that priority, else the first failing test. -/
def getNextTest (now : String) (file : LedgerFile) :
    Option TestCase × LedgerFile :=
  let (suite, file') := loadSuite now file
  let failingTests := suite.tests.filter fun t => !t.passes
  if failingTests.isEmpty then
    (none, file')
  else
    match testPriorityOrder.findSome?
        (fun p => failingTests.find? fun t => t.priority = p) with
    | some t => (some t, file')
    | none => (failingTests.head?, file')

/-- The scalar part of getProgressSummary (the per-category and
per-priority tallies carry no further store effect and are omitted). -/
structure ProgressSummary where
  total : Nat
  passed : Nat
  failed : Nat
  percentage : Nat
deriving DecidableEq, Repr

/-- Math.round of 100 * passed / total for nonnegative arguments. -/
def jsRound100 (passed total : Nat) : Nat :=
  (200 * passed + total) / (2 * total)

/-- getProgressSummary: load, then tally. -/
def getProgressSummary (now : String) (file : LedgerFile) :
    ProgressSummary × LedgerFile :=
  let (suite, file') := loadSuite now file
  let total := suite.tests.length
  let passed := (suite.tests.filter fun t => t.passes).length
  ({ total := total
     passed := passed
     failed := total - passed
     percentage := if total > 0 then jsRound100 passed total else 0 }, file')

/-- The evidence record a caller hands to markTestPassing. -/
structure Evidence where
  screenshot_path : String
  console_log_path : String
  notes : Option String
deriving DecidableEq, Repr

/-- markTestPassing: load the suite, find the test, verify the screenshot
file exists, the console-log file exists and its content carries neither
"ERROR" nor "FAIL"; only then set passes and the verification fields and
persist via saveSuite.  Any failed check returns false with nothing
mutated.  evDisk is the evidence filesystem: path to content. -/
def markTestPassing (evDisk : String → Option String) (now : String)
    (file : LedgerFile) (testId : String) (evidence : Evidence) :
    Bool × LedgerFile :=
  let (suite, file') := loadSuite now file
  match suite.tests.find? (fun t => t.id = testId) with
  | none => (false, file')
  | some _ =>
    match evDisk evidence.screenshot_path with
    | none => (false, file')
    | some _ =>
      match evDisk evidence.console_log_path with
      | none => (false, file')
      | some consoleContent =>
        if includesStr consoleContent "ERROR" || includesStr consoleContent "FAIL" then
          (false, file')
        else
          let tests := updateFirst (fun t => t.id = testId)
            (fun t => { t with
              passes := true
              verified_at := some now
              screenshot_path := some evidence.screenshot_path
              console_log_path := some evidence.console_log_path
              notes := evidence.notes }) suite.tests
          (true, .stored (saveSuite now { suite with tests := tests }))

/-- The acceptance condition of the evidence checks, as the spec words it:
both paths exist on disk and the console-log content has no failure
marker. -/
def evidenceAccepted (evDisk : String → Option String) (evidence : Evidence) : Bool :=
  match evDisk evidence.screenshot_path, evDisk evidence.console_log_path with
  | some _, some consoleContent =>
    !(includesStr consoleContent "ERROR" || includesStr consoleContent "FAIL")
  | _, _ => false

/-- The suite a ledger state stores, if any. -/
def storedSuite : LedgerFile → Option TestSuite
  | .stored suite => some suite
  | _ => none

/-! ### State manager (src/core/state-manager.ts) -/

def VALID_STATES : List String :=
  ["continuous", "run_once", "run_cleanup", "pause", "terminated"]

/-- AgentStateData record from state-manager.ts.  The enum-typed fields are
plain strings because readState must cope with arbitrary stored values; an
absent or empty required field is the empty string (both are falsy to the
JavaScript check the code performs). -/
structure AgentStateData where
  desired_state : String
  current_state : String
  timestamp : String
  setBy : String
  note : String
  phase : Option String
  current_issue : Option Int
  restart_count : Option Int
  last_commit : Option String
deriving DecidableEq, Repr

/-- On-disk state of agent_state.json: absent, unreadable (JSON.parse or
readFileSync throws, err the stringified error), or parsed. -/
inductive StateFile
  | missing
  | unreadable (err : String)
  | parsed (s : AgentStateData)
deriving DecidableEq, Repr

/-- The default pause record readState substitutes, with the note of the
branch that produced it. -/
def defaultPauseState (now note : String) : AgentStateData :=
  { desired_state := "pause"
    current_state := "pause"
    timestamp := now
    setBy := "agent"
    note := note
    phase := none
    current_issue := none
    restart_count := none
    last_commit := none }

/-- readState: missing file and read/parse errors yield the default pause
record; a parsed record missing either required field yields the default
pause record; otherwise each of desired_state and current_state is kept
when it is a member of VALID_STATES and coerced to pause when not, every
other stored field passing through unchanged. -/
def readState (now : String) : StateFile → AgentStateData
  | .missing => defaultPauseState now "Default state (file did not exist)"
  | .unreadable err => defaultPauseState now ("Read error: " ++ err)
  | .parsed s =>
    if s.desired_state = "" ∨ s.current_state = "" then
      defaultPauseState now "Malformed state file"
    else
      let s1 := if VALID_STATES.contains s.desired_state then s
        else { s with desired_state := "pause" }
      if VALID_STATES.contains s1.current_state then s1
      else { s1 with current_state := "pause" }

/-! ### Backlog manager (src/core/backlog-manager.ts) -/

/-- BacklogPriority enum from backlog-manager.ts. -/
inductive BacklogPriority
  | critical
  | high
  | medium
  | low
deriving DecidableEq, Repr

/-- BacklogStatus enum from backlog-manager.ts. -/
inductive BacklogStatus
  | backlog
  | in_progress
  | blocked
  | done
deriving DecidableEq, Repr

/-- BacklogComment record from backlog-manager.ts. -/
structure BacklogComment where
  author : String
  timestamp : String
  text : String
deriving DecidableEq, Repr

/-- BacklogItem record from backlog-manager.ts (type kept as a plain
string). -/
structure BacklogItem where
  id : String
  type : String
  priority : BacklogPriority
  status : BacklogStatus
  description : String
  details : String
  comments : List BacklogComment
  added : String
  completed : Bool
  completedDate : Option String
  github_issue : Option Int
  vote_count : Option Int
deriving DecidableEq, Repr

/-- addItem: appends a fresh backlog-status, not-completed item (the id is
Date.now() as a string, passed as newId; added is the ISO timestamp). -/
def addItem (newId now : String) (backlog : List BacklogItem) (type : String)
    (priority : BacklogPriority) (description details : String)
    (github_issue : Option Int) : List BacklogItem :=
  backlog ++ [{ id := newId
                type := type
                priority := priority
                status := .backlog
                description := description
                details := details
                comments := []
                added := now
                completed := false
                completedDate := none
                github_issue := github_issue
                vote_count := some 0 }]

/-- updateStatus: finds the item, sets its status, and only when the new
status is done also sets completed and completedDate; completed is never
reset for any other status.  Returns false and leaves the backlog alone
when the id is unknown. -/
def updateStatus (now : String) (backlog : List BacklogItem) (id : String)
    (status : BacklogStatus) : Bool × List BacklogItem :=
  match backlog.find? (fun i => i.id = id) with
  | none => (false, backlog)
  | some _ =>
    (true, updateFirst (fun i => i.id = id)
      (fun item =>
        let item := { item with status := status }
        if status = .done then
          { item with completed := true, completedDate := some now }
        else item)
      backlog)

/-- markComplete is updateStatus to done. -/
def markComplete (now : String) (backlog : List BacklogItem) (id : String) :
    Bool × List BacklogItem :=
  updateStatus now backlog id .done

/-- markInProgress is updateStatus to in_progress. -/
def markInProgress (now : String) (backlog : List BacklogItem) (id : String) :
    Bool × List BacklogItem :=
  updateStatus now backlog id .in_progress

/-- markBlocked: sets status to blocked and appends the agent-authored
reason comment; completed is untouched. -/
def markBlocked (now : String) (backlog : List BacklogItem) (id : String)
    (reason : String) : Bool × List BacklogItem :=
  match backlog.find? (fun i => i.id = id) with
  | none => (false, backlog)
  | some _ =>
    (true, updateFirst (fun i => i.id = id)
      (fun item =>
        { item with
          status := .blocked
          comments := item.comments ++
            [{ author := "agent", timestamp := now, text := "Blocked: " ++ reason }] })
      backlog)

/-- addComment: appends a comment to the found item; status and completed
are untouched. -/
def addComment (now : String) (backlog : List BacklogItem) (id : String)
    (author text : String) : Bool × List BacklogItem :=
  match backlog.find? (fun i => i.id = id) with
  | none => (false, backlog)
  | some _ =>
    (true, updateFirst (fun i => i.id = id)
      (fun item =>
        { item with
          comments := item.comments ++
            [{ author := author, timestamp := now, text := text }] })
      backlog)

/-- The fixed priority scan order of getNextItem. -/
def backlogPriorityOrder : List BacklogPriority :=
  [.critical, .high, .medium, .low]

/-- getNextItem: over the items with completed == false, first any
in_progress item (file order), else the first backlog-status item scanning
critical, high, medium, low, else the first item in that same priority
scan ignoring status, else the first incomplete item in file order. -/
def getNextItem (backlog : List BacklogItem) : Option BacklogItem :=
  let incomplete := backlog.filter fun item => !item.completed
  if incomplete.isEmpty then
    none
  else
    match incomplete.find? (fun item => item.status = .in_progress) with
    | some item => some item
    | none =>
      match backlogPriorityOrder.findSome?
          (fun p => incomplete.find? fun i =>
            decide (i.priority = p) && decide (i.status = .backlog)) with
      | some item => some item
      | none =>
        match backlogPriorityOrder.findSome?
            (fun p => incomplete.find? fun i => i.priority = p) with
        | some item => some item
        | none => incomplete.head?

/-- The cascade exactly as section 4.2 of the specification words it, over
the incomplete items: (1) in_progress first by file order; (2) first
backlog-status item scanning critical to low; (3) first incomplete item in
the same scan ignoring status; (4) first incomplete item in file order. -/
def specNextItem (backlog : List BacklogItem) : Option BacklogItem :=
  let incomplete := backlog.filter fun item => !item.completed
  match incomplete.find? (fun item => item.status = .in_progress) with
  | some item => some item
  | none =>
    match (incomplete.filter fun i => i.status = .backlog).find?
        (fun i => i.priority = .critical) with
    | some item => some item
    | none =>
      match (incomplete.filter fun i => i.status = .backlog).find?
          (fun i => i.priority = .high) with
      | some item => some item
      | none =>
        match (incomplete.filter fun i => i.status = .backlog).find?
            (fun i => i.priority = .medium) with
        | some item => some item
        | none =>
          match (incomplete.filter fun i => i.status = .backlog).find?
              (fun i => i.priority = .low) with
          | some item => some item
          | none =>
            match incomplete.find? (fun i => i.priority = .critical) with
            | some item => some item
            | none =>
              match incomplete.find? (fun i => i.priority = .high) with
              | some item => some item
              | none =>
                match incomplete.find? (fun i => i.priority = .medium) with
                | some item => some item
                | none =>
                  match incomplete.find? (fun i => i.priority = .low) with
                  | some item => some item
                  | none => incomplete.head?

/-- The concrete backlog for C9: a single item legitimately completed
(status done, completed true), satisfying the claimed invariant. -/
def C9doneBacklog : List BacklogItem :=
  [{ id := "1"
     type := "bug"
     priority := .high
     status := .done
     description := "repro crash"
     details := ""
     comments := []
     added := "t0"
     completed := true
     completedDate := some "t1"
     github_issue := none
     vote_count := some 0 }]

/-! ### Workflow engine (the 4-step WorkflowEngine source file) -/

/-- WorkflowState union from the workflow engine. -/
inductive WorkflowState
  | idle
  | initializing
  | selecting
  | coding
  | verifying
  | completed
  | failed
deriving DecidableEq, Repr

/-- WorkflowContext record (startedAt and lastStepCompletedAt are wall
clock and carry no logic; they are omitted). -/
structure WorkflowContext where
  sessionId : String
  currentStep : Nat
  state : WorkflowState
  currentFeatureId : Option String
  iterationCount : Nat
  maxIterations : Nat
deriving DecidableEq, Repr

/-- createInitialContext from the source: note it hard-codes
maxIterations := 3. -/
def createInitialContext (sessionId : String) : WorkflowContext :=
  { sessionId := sessionId
    currentStep := 1
    state := .idle
    currentFeatureId := none
    iterationCount := 0
    maxIterations := 3 }

set_option linter.unusedVariables false in
/-- The WorkflowEngine constructor accepts a maxIterations parameter
(source default 3) but stores createInitialContext(), which never reads
that parameter: the argument has no effect on the stored context. -/
def mkEngineContext (sessionId : String) (maxIterations : Nat) : WorkflowContext :=
  createInitialContext sessionId

/-- StepResult record (the wall-clock duration field is omitted). -/
structure StepResult where
  step : Nat
  success : Bool
  output : String
  error : Option String
  nextAction : String
deriving DecidableEq, Repr

/-- The outcome of the test phase (TestPhase.executeTestPhase runs the
external lint/build/browser commands; only the aggregate verdict and the
failed-check names flow back into the engine). -/
structure TestPhaseResult where
  allPassed : Bool
  failedTests : List String
deriving DecidableEq, Repr

/-- How executeStep1 can come out: init.sh absent (abort), the dev server
never answering within the timeout (retry), a thrown error (retry), or a
running server (success).  Which one happens is decided by the outside
world, so it is an input of the embedding. -/
inductive Step1Outcome
  | missingInitScript
  | serverTimeout
  | thrown (err : String)
  | ready
deriving DecidableEq, Repr

/-- executeStep1, its four exit paths as in the source. -/
def executeStep1 : Step1Outcome → StepResult
  | .missingInitScript =>
    { step := 1
      success := false
      output := "init.sh not found"
      error := some "init.sh script does not exist in project root"
      nextAction := "abort" }
  | .serverTimeout =>
    { step := 1
      success := false
      output := "Executing: ./init.sh\n"
      error := some "Server did not start within timeout"
      nextAction := "retry" }
  | .thrown err =>
    { step := 1
      success := false
      output := ""
      error := some err
      nextAction := "retry" }
  | .ready =>
    { step := 1
      success := true
      output := "Executing: ./init.sh\nServer running at http://localhost:3000"
      error := none
      nextAction := "continue" }

/-- executeStep2: ask the feature manager for the next incomplete feature
(the load may throw, caught into a retry failure); none means all features
complete (abort, not an error); a feature selects it and records its id as
the context's currentFeatureId (the second component). -/
def executeStep2 (loaded : Except String FeatureList) : StepResult × Option String :=
  match loaded with
  | .error e =>
    ({ step := 2
       success := false
       output := ""
       error := some e
       nextAction := "retry" }, none)
  | .ok list =>
    match getNextIncompleteFeature list with
    | none =>
      ({ step := 2
         success := false
         output := "No incomplete features found"
         error := some "All features completed or no features defined"
         nextAction := "abort" }, none)
    | some f =>
      ({ step := 2
         success := true
         output := "Selected feature: " ++ f.id ++ " - " ++ f.description
         error := none
         nextAction := "continue" }, some f.id)

/-- String interpolation of a possibly-null feature id. -/
def featureIdStr : Option String → String
  | none => "null"
  | some s => s

/-- executeStep3: purely informational, always succeeds (the agent does
the actual coding outside the engine). -/
def executeStep3 (currentFeatureId : Option String) (iteration : Nat) : StepResult :=
  { step := 3
    success := true
    output :=
      if iteration = 1 then
        "Starting implementation of feature: " ++ featureIdStr currentFeatureId
      else
        "Retrying implementation (iteration " ++ toString iteration ++ "): "
          ++ featureIdStr currentFeatureId
    error := none
    nextAction := "continue" }

/-- executeStep4: success is the test phase's aggregate verdict; failure
carries the joined failed-check names and asks for a retry.  The
human-readable diagnostic text is elided (it carries no logic). -/
def executeStep4 (testResults : TestPhaseResult) : StepResult :=
  if testResults.allPassed then
    { step := 4
      success := true
      output := ""
      error := none
      nextAction := "continue" }
  else
    { step := 4
      success := false
      output := ""
      error := some (String.intercalate ", " testResults.failedTests)
      nextAction := "retry" }

/-- The while loop of executeWorkflow
(while !allPassed && iterations < maxIterations): fuel is
maxIterations - iterations, so the loop runs at most fuel more cycles;
each cycle runs step 3, on step-3 failure retries immediately (continue),
otherwise runs step 4 and stops on success.  Returns (allPassed, final
iteration counter, accumulated step records). -/
def workflowLoop (verify : Nat → TestPhaseResult) (fid : Option String) :
    Nat → Nat → List StepResult → Bool × Nat × List StepResult
  | 0, iterations, steps => (false, iterations, steps)
  | fuel + 1, iterations, steps =>
    if (executeStep3 fid (iterations + 1)).success = false then
      workflowLoop verify fid fuel (iterations + 1)
        (steps ++ [executeStep3 fid (iterations + 1)])
    else
      if (executeStep4 (verify (iterations + 1))).success then
        (true, iterations + 1,
          steps ++ [executeStep3 fid (iterations + 1)]
            ++ [executeStep4 (verify (iterations + 1))])
      else
        workflowLoop verify fid fuel (iterations + 1)
          (steps ++ [executeStep3 fid (iterations + 1)]
            ++ [executeStep4 (verify (iterations + 1))])

/-- WorkflowResult (totalDuration is wall clock and omitted; the source's
testResults field reads a property that StepResult does not have, so it is
always undefined and carries nothing). -/
structure WorkflowResult where
  success : Bool
  featureCompleted : Bool
  featureId : Option String
  iterations : Nat
  steps : List StepResult
deriving DecidableEq, Repr

/-- What the outside world decides for one executeWorkflow run: how step 1
comes out, what the feature-list load yields, and the verdict of each
iteration's test phase. -/
structure WorkflowEnv where
  step1 : Step1Outcome
  loaded : Except String FeatureList
  verify : Nat → TestPhaseResult

/-- executeWorkflow: step 1, then step 2, each failure returning the
failed result immediately; then the bounded code/verify loop.  Exceeding
the cap just returns success = false - no exception path exists. -/
def executeWorkflow (env : WorkflowEnv) (ctx : WorkflowContext) : WorkflowResult :=
  if (executeStep1 env.step1).success = false then
    { success := false
      featureCompleted := false
      featureId := ctx.currentFeatureId
      iterations := ctx.iterationCount
      steps := [executeStep1 env.step1] }
  else
    if (executeStep2 env.loaded).1.success = false then
      { success := false
        featureCompleted := false
        featureId := ctx.currentFeatureId
        iterations := ctx.iterationCount
        steps := [executeStep1 env.step1, (executeStep2 env.loaded).1] }
    else
      { success := (workflowLoop env.verify (executeStep2 env.loaded).2
          ctx.maxIterations 0
          [executeStep1 env.step1, (executeStep2 env.loaded).1]).1
        featureCompleted := (workflowLoop env.verify (executeStep2 env.loaded).2
          ctx.maxIterations 0
          [executeStep1 env.step1, (executeStep2 env.loaded).1]).1
        featureId := (executeStep2 env.loaded).2
        iterations := (workflowLoop env.verify (executeStep2 env.loaded).2
          ctx.maxIterations 0
          [executeStep1 env.step1, (executeStep2 env.loaded).1]).2.1
        steps := (workflowLoop env.verify (executeStep2 env.loaded).2
          ctx.maxIterations 0
          [executeStep1 env.step1, (executeStep2 env.loaded).1]).2.2 }

/-- Step records with a given step number. -/
def countStep (n : Nat) (steps : List StepResult) : Nat :=
  (steps.filter fun s => s.step = n).length

/-- The single-feature list driving the concrete C5 run. -/
def C5featureList : FeatureList :=
  { projectName := "sample"
    createdAt := "t0"
    updatedAt := "t0"
    totalFeatures := 1
    completedFeatures := 0
    features := [{ id := "F001"
                   category := "functional"
                   description := "sample feature"
                   steps := ["step"]
                   passes := false
                   priority := 1
                   dependencies := none
                   verificationNotes := none
                   lastAttemptedAt := none
                   completedAt := none }] }

/-- A run in which the environment is healthy, a feature is selectable and
every verification fails. -/
def C5env : WorkflowEnv :=
  { step1 := .ready
    loaded := .ok C5featureList
    verify := fun _ => { allPassed := false, failedTests := ["lint"] } }

/-! ### Lemmas and theorems settling the claims -/

/-- Inserting a feature with List.orderedInsert touches the per-priority
slices of the list in the expected stable way: the new feature lands in
front of the slice for its own priority and every other slice is kept
verbatim (every element skipped by orderedInsert has a strictly smaller
priority than the inserted one). -/
lemma filter_priority_orderedInsert (p : Int) (a : Feature) (l : List Feature) :
    (l.orderedInsert byPriority a).filter (fun f => decide (f.priority = p)) =
      if a.priority = p then
        a :: l.filter (fun f => decide (f.priority = p))
      else
        l.filter (fun f => decide (f.priority = p)) := by
  induction l with
  | nil =>
    by_cases hp : a.priority = p <;> simp [List.orderedInsert, List.filter, hp]
  | cons b t ih =>
    by_cases hab : byPriority a b
    · by_cases hp : a.priority = p <;>
        simp [List.orderedInsert, hab, List.filter, hp]
    · have hba : b.priority < a.priority := by
        simpa [byPriority, not_le] using hab
      by_cases hp : a.priority = p
      · have hbp : ¬ b.priority = p := by omega
        simp [List.orderedInsert, hab, List.filter, hbp, ih, hp]
      · by_cases hbp : b.priority = p <;>
          simp [List.orderedInsert, hab, List.filter, hbp, ih, hp]

/-- Stability of the priority sort: for every priority value the sorted
list carries exactly the features of that priority, in their original
order, so ties are broken by original insertion order. -/
lemma filter_priority_insertionSort (p : Int) (l : List Feature) :
    (l.insertionSort byPriority).filter (fun f => decide (f.priority = p)) =
      l.filter (fun f => decide (f.priority = p)) := by
  induction l with
  | nil => rfl
  | cons a t ih =>
    by_cases hp : a.priority = p <;>
      simp [List.insertionSort, filter_priority_orderedInsert, hp, ih, List.filter]

lemma insertionSort_eq_nil_iff {l : List Feature} :
    l.insertionSort byPriority = [] ↔ l = [] := by
  constructor
  · intro h
    have hlen := List.length_insertionSort byPriority l
    rw [h] at hlen
    exact List.length_eq_zero.mp hlen.symm
  · rintro rfl
    rfl

/-- C1. getNextIncompleteFeature returns none exactly when every feature
passes; it equals the specification's four-step selection algorithm; and
the sort it uses is the stable sort by ascending priority (sorted output,
per-priority slices kept in original order).  Determinism is immediate:
the embedding is a pure function of the feature collection. -/
theorem C1_getNextIncompleteFeature_correct (list : FeatureList) :
    (getNextIncompleteFeature list = none ↔ ∀ f ∈ list.features, f.passes = true)
    ∧ getNextIncompleteFeature list = specNextIncomplete list
    ∧ List.Sorted byPriority
        ((list.features.filter fun f => !f.passes).insertionSort byPriority)
    ∧ ∀ p : Int,
        ((list.features.filter fun f => !f.passes).insertionSort byPriority).filter
            (fun f => decide (f.priority = p)) =
          (list.features.filter fun f => !f.passes).filter
            (fun f => decide (f.priority = p)) := by
  refine ⟨?_, ?_, List.sorted_insertionSort byPriority _,
    fun p => filter_priority_insertionSort p _⟩
  · unfold getNextIncompleteFeature
    cases hl : (list.features.filter fun f => !f.passes).insertionSort byPriority with
    | nil =>
      simp only [hl, List.isEmpty_nil, if_true]
      constructor
      · intro _ f hf
        have h0 : (list.features.filter fun f => !f.passes) = [] :=
          insertionSort_eq_nil_iff.mp hl
        have := List.filter_eq_nil_iff.mp h0 f hf
        simpa using this
      · intro _
        trivial
    | cons a t =>
      simp only [hl, List.isEmpty_cons, if_false]
      constructor
      · intro hnone
        exfalso
        cases hfind : (a :: t).find? (fun f => areDependenciesMet list f) <;>
          simp [hfind] at hnone
      · intro hall
        exfalso
        have ha : a ∈ (list.features.filter fun f => !f.passes).insertionSort byPriority := by
          rw [hl]
          exact List.mem_cons_self a t
        have ha2 : a ∈ list.features.filter fun f => !f.passes :=
          (List.mem_insertionSort byPriority).mp ha
        have hmem := List.mem_filter.mp ha2
        have hp := hall a hmem.1
        simp [hp] at hmem
  · unfold getNextIncompleteFeature specNextIncomplete
    cases hl : (list.features.filter fun f => !f.passes).insertionSort byPriority with
    | nil => simp [hl]
    | cons a t => simp [hl]

/-- find? after updateFirst: when the rewrite keeps the search predicate
true, the first match of the rewritten list is the rewritten first match
of the original list. -/
lemma find?_updateFirst {p : α → Bool} {g : α → α}
    (hg : ∀ x, p x = true → p (g x) = true) :
    ∀ {l : List α} {x : α}, l.find? p = some x →
      (updateFirst p g l).find? p = some (g x)
  | [], x, h => by simp at h
  | a :: t, x, h => by
    by_cases ha : p a = true
    · have hx : x = a := by
        rw [List.find?_cons_of_pos _ ha] at h
        exact (Option.some_inj.mp h).symm
      subst hx
      rw [updateFirst, if_pos ha]
      exact List.find?_cons_of_pos _ (hg x ha)
    · have hb : p a = false := by simpa using ha
      rw [List.find?_cons_of_neg _ (by simp [hb])] at h
      rw [updateFirst, if_neg (by simp [hb])]
      rw [List.find?_cons_of_neg _ (by simp [hb])]
      exact find?_updateFirst hg h

/-- C3. markFeatureComplete fails with the unknown-id error when the id
resolves to no feature, fails with the documented verification error when
any step reports failure (in both cases nothing is mutated or persisted:
the error is thrown before any assignment), and on an ok result every
verification step had passed, the cached completed-count equals the
recount of passing features, and the feature now carries passes = true,
the completion timestamp and the concatenated step-by-step notes. -/
theorem C3_markFeatureComplete_guarded (now projectName : String)
    (list : FeatureList) (featureId : String) (steps : List VerificationStep) :
    (list.features.find? (fun f => f.id = featureId) = none →
      markFeatureComplete now projectName list featureId steps
        = .error ("Feature not found: " ++ featureId))
    ∧ ((∃ s ∈ steps, s.passed = false) →
      markFeatureComplete now projectName list featureId steps
          = .error ("Feature not found: " ++ featureId)
        ∨ markFeatureComplete now projectName list featureId steps
          = .error "Cannot mark feature as complete: not all verification steps passed")
    ∧ (∀ fl', markFeatureComplete now projectName list featureId steps = .ok fl' →
        (steps.all fun s => s.passed) = true
        ∧ fl'.completedFeatures = (fl'.features.filter fun f => f.passes).length
        ∧ fl'.updatedAt = now
        ∧ ∃ f, fl'.features.find? (fun f => f.id = featureId) = some f
            ∧ f.passes = true
            ∧ f.completedAt = some now
            ∧ f.verificationNotes = some (verificationNotesString steps)) := by
  refine ⟨?_, ?_, ?_⟩
  · intro hnone
    unfold markFeatureComplete
    rw [hnone]
  · rintro ⟨s, hs, hfail⟩
    unfold markFeatureComplete
    cases hfind : list.features.find? (fun f => f.id = featureId) with
    | none => exact Or.inl rfl
    | some f =>
      right
      have hall : (steps.all fun s => s.passed) = false := by
        rw [List.all_eq_false]
        exact ⟨s, hs, by simp [hfail]⟩
      rw [if_neg (by simp [hall])]
  · intro fl' hok
    unfold markFeatureComplete at hok
    cases hfind : list.features.find? (fun f => f.id = featureId) with
    | none => simp [hfind] at hok
    | some f =>
      rw [hfind] at hok
      by_cases hall : (steps.all fun s => s.passed) = true
      · rw [if_pos hall] at hok
        have hfl : fl' = saveFeatureList now projectName
            (updateFirst (fun f => f.id = featureId)
              (fun f => { f with
                passes := true
                completedAt := some now
                verificationNotes := some (verificationNotesString steps) })
              list.features) := by
          cases hok
          rfl
        subst hfl
        refine ⟨hall, rfl, rfl, ?_⟩
        have hfind' := find?_updateFirst
          (p := fun (f : Feature) => decide (f.id = featureId))
          (g := fun (f : Feature) => { f with
            passes := true
            completedAt := some now
            verificationNotes := some (verificationNotesString steps) })
          (fun x hx => hx) hfind
        exact ⟨_, hfind', rfl, rfl, rfl⟩
      · rw [if_neg hall] at hok
        cases hok

/-- C8 counterexample. Contrary to the claim, a read-only query against a
missing store does not degrade to the zero result: with nothing cached and
the file absent, getIncompleteFeatureCount propagates the read error and
does not return 0 (loadFeatureList has no existence check and no catch). -/
theorem C8_counterexample_missing_store_read_fails :
    getIncompleteFeatureCount none none
        = Except.error "ENOENT: no such file or directory"
    ∧ getIncompleteFeatureCount none none ≠ Except.ok 0 := by
  exact ⟨rfl, fun h => Except.noConfusion h⟩

/-- C8 amended. When the persisted file is missing and nothing is cached,
the load error propagates to every caller: the read-only queries
(getIncompleteFeatureCount, getNextIncompleteFeature, getFeature) fail
exactly like the mutating markFeatureComplete; only a present file (or a
warm cache) lets a read-only query answer, in which case the count is the
recount of passes == false features. -/
theorem C8_missing_store_fatal_for_reads_and_writes (now projectName featureId : String)
    (steps : List VerificationStep) :
    loadFeatureList none none = Except.error "ENOENT: no such file or directory"
    ∧ getIncompleteFeatureCount none none
        = Except.error "ENOENT: no such file or directory"
    ∧ getNextIncompleteFeatureM none none
        = Except.error "ENOENT: no such file or directory"
    ∧ getFeatureM none none featureId
        = Except.error "ENOENT: no such file or directory"
    ∧ markFeatureCompleteM now projectName none none featureId steps
        = Except.error "ENOENT: no such file or directory"
    ∧ (∀ l : FeatureList, getIncompleteFeatureCount none (some l)
        = Except.ok (l.features.filter fun f => !f.passes).length)
    ∧ (∀ l : FeatureList, getIncompleteFeatureCount (some l) none
        = Except.ok (l.features.filter fun f => !f.passes).length) := by
  exact ⟨rfl, rfl, rfl, rfl, rfl, fun l => rfl, fun l => rfl⟩

/-- C2. markTestPassing succeeds exactly when the test exists and the
evidence is accepted (screenshot on disk, console log on disk, no ERROR or
FAIL marker in the log content); on failure the store is exactly what the
load produced, nothing of the test record mutated; on success the test
record carries passes = true and the verification fields. -/
theorem C2_markTestPassing_evidence_gated (evDisk : String → Option String)
    (now : String) (file : LedgerFile) (testId : String) (evidence : Evidence) :
    ((markTestPassing evDisk now file testId evidence).1 = true ↔
      ((loadSuite now file).1.tests.find? fun t => t.id = testId).isSome = true
        ∧ evidenceAccepted evDisk evidence = true)
    ∧ ((markTestPassing evDisk now file testId evidence).1 = false →
        (markTestPassing evDisk now file testId evidence).2 = (loadSuite now file).2)
    ∧ ((markTestPassing evDisk now file testId evidence).1 = true →
        ∃ t, ((storedSuite (markTestPassing evDisk now file testId evidence).2).bind
              fun s => s.tests.find? fun u => u.id = testId) = some t
          ∧ t.passes = true
          ∧ t.verified_at = some now
          ∧ t.screenshot_path = some evidence.screenshot_path
          ∧ t.console_log_path = some evidence.console_log_path
          ∧ t.notes = evidence.notes) := by
  cases hl : loadSuite now file with
  | mk suite file' =>
    cases hf : suite.tests.find? (fun t => t.id = testId) with
    | none =>
      simp [markTestPassing, hl, hf]
    | some t0 =>
      cases hs : evDisk evidence.screenshot_path with
      | none =>
        simp [markTestPassing, hl, hf, hs, evidenceAccepted]
      | some sc =>
        cases hc : evDisk evidence.console_log_path with
        | none =>
          simp [markTestPassing, hl, hf, hs, hc, evidenceAccepted]
        | some cc =>
          by_cases hm : (includesStr cc "ERROR" || includesStr cc "FAIL") = true
          · simp [markTestPassing, hl, hf, hs, hc, hm, evidenceAccepted]
          · have hm' : (includesStr cc "ERROR" || includesStr cc "FAIL") = false := by
              simpa using hm
            have hfind' := find?_updateFirst
              (p := fun (t : TestCase) => decide (t.id = testId))
              (g := fun (t : TestCase) => { t with
                passes := true
                verified_at := some now
                screenshot_path := some evidence.screenshot_path
                console_log_path := some evidence.console_log_path
                notes := evidence.notes })
              (fun x hx => hx) hf
            refine ⟨?_, ?_, ?_⟩
            · simp [markTestPassing, hl, hf, hs, hc, hm', evidenceAccepted]
            · intro hfalse
              exfalso
              simp [markTestPassing, hl, hf, hs, hc, hm'] at hfalse
            · intro _
              refine ⟨{ t0 with
                  passes := true
                  verified_at := some now
                  screenshot_path := some evidence.screenshot_path
                  console_log_path := some evidence.console_log_path
                  notes := evidence.notes }, ?_, rfl, rfl, rfl, rfl, rfl⟩
              simp only [markTestPassing, hl, hf, hs, hc, hm', Bool.false_eq_true,
                if_false, storedSuite, saveSuite, Option.bind_some]
              exact hfind'

/-- C10. Against a missing or corrupt tests.json, each read-only query
(getTest, getFailingTests, getNextTest, getProgressSummary) rewrites the
on-disk ledger with a freshly initialized empty suite of version 1.0.0 and
zero tests, while a parseable stored suite is left untouched. -/
theorem C10_read_queries_reinitialize_store (now testId : String) :
    (getTest now testId .missing).2 = (initializeSuite now).2
    ∧ (getTest now testId .corrupt).2 = (initializeSuite now).2
    ∧ (getFailingTests now .missing).2 = (initializeSuite now).2
    ∧ (getFailingTests now .corrupt).2 = (initializeSuite now).2
    ∧ (getNextTest now .missing).2 = (initializeSuite now).2
    ∧ (getNextTest now .corrupt).2 = (initializeSuite now).2
    ∧ (getProgressSummary now .missing).2 = (initializeSuite now).2
    ∧ (getProgressSummary now .corrupt).2 = (initializeSuite now).2
    ∧ (initializeSuite now).2 = .stored (initializeSuite now).1
    ∧ (initializeSuite now).1.version = "1.0.0"
    ∧ (initializeSuite now).1.tests = []
    ∧ (initializeSuite now).1.total_tests = 0
    ∧ (initializeSuite now).1.passed_tests = 0
    ∧ (∀ suite, (getTest now testId (.stored suite)).2 = .stored suite)
    ∧ (∀ suite, (getNextTest now (.stored suite)).2 = .stored suite) := by
  refine ⟨rfl, rfl, rfl, rfl, rfl, rfl, rfl, rfl, rfl, rfl, rfl, rfl, rfl,
    fun _ => rfl, fun suite => ?_⟩
  simp only [getNextTest, loadSuite]
  split
  · rfl
  · split <;> rfl

/-- readState on a parsed record with both required fields present coerces
each enum field independently and keeps everything else. -/
lemma readState_parsed_eq (now : String) (s : AgentStateData)
    (h0 : ¬(s.desired_state = "" ∨ s.current_state = "")) :
    readState now (.parsed s) =
      { s with
        desired_state :=
          if VALID_STATES.contains s.desired_state then s.desired_state else "pause"
        current_state :=
          if VALID_STATES.contains s.current_state then s.current_state else "pause" } := by
  rw [readState, if_neg h0]
  by_cases hd : s.desired_state ∈ VALID_STATES
  · by_cases hc : s.current_state ∈ VALID_STATES
    · simp [hd, hc]
    · simp [hd, hc]
  · by_cases hc : s.current_state ∈ VALID_STATES
    · simp [hd, hc]
    · simp [hd, hc]

/-- C6. readState is total (no exception path exists in the embedding) and
always answers with valid enum values; the missing-file and unreadable
branches give the default pause record; a record missing a required field
gives the default pause record; otherwise each enum field is kept when
valid and coerced to pause when invalid, every other field returned as
stored; in particular the stored pair (bogus, continuous) reads back as
(pause, continuous) with the rest of the record intact. -/
theorem C6_readState_never_raises_coerces (now : String) :
    (∀ f : StateFile,
      VALID_STATES.contains (readState now f).desired_state = true
      ∧ VALID_STATES.contains (readState now f).current_state = true)
    ∧ readState now .missing
        = defaultPauseState now "Default state (file did not exist)"
    ∧ (∀ err, readState now (.unreadable err)
        = defaultPauseState now ("Read error: " ++ err))
    ∧ (∀ s : AgentStateData, s.desired_state = "" ∨ s.current_state = "" →
        readState now (.parsed s) = defaultPauseState now "Malformed state file")
    ∧ (∀ s : AgentStateData, ¬(s.desired_state = "" ∨ s.current_state = "") →
        readState now (.parsed s) =
          { s with
            desired_state :=
              if VALID_STATES.contains s.desired_state then s.desired_state
              else "pause"
            current_state :=
              if VALID_STATES.contains s.current_state then s.current_state
              else "pause" })
    ∧ (∀ ts sb nt ph ci rc lc, readState now (.parsed
        { desired_state := "bogus"
          current_state := "continuous"
          timestamp := ts
          setBy := sb
          note := nt
          phase := ph
          current_issue := ci
          restart_count := rc
          last_commit := lc })
      = { desired_state := "pause"
          current_state := "continuous"
          timestamp := ts
          setBy := sb
          note := nt
          phase := ph
          current_issue := ci
          restart_count := rc
          last_commit := lc }) := by
  refine ⟨?_, rfl, fun err => rfl, ?_, readState_parsed_eq now, ?_⟩
  · intro f
    cases f with
    | missing => exact ⟨rfl, rfl⟩
    | unreadable err => exact ⟨rfl, rfl⟩
    | parsed s =>
      by_cases h0 : s.desired_state = "" ∨ s.current_state = ""
      · rw [readState, if_pos h0]
        exact ⟨rfl, rfl⟩
      · rw [readState_parsed_eq now s h0]
        constructor
        · show VALID_STATES.contains
            (if VALID_STATES.contains s.desired_state then s.desired_state
             else "pause") = true
          by_cases hd : VALID_STATES.contains s.desired_state = true
          · rw [if_pos hd]
            exact hd
          · rw [if_neg hd]
            rfl
        · show VALID_STATES.contains
            (if VALID_STATES.contains s.current_state then s.current_state
             else "pause") = true
          by_cases hc : VALID_STATES.contains s.current_state = true
          · rw [if_pos hc]
            exact hc
          · rw [if_neg hc]
            rfl
  · intro s h0
    rw [readState, if_pos h0]
  · intro ts sb nt ph ci rc lc
    rfl

/-- Finding by priority among the backlog-status items equals finding the
conjunction over the unfiltered list (filter keeps order). -/
lemma find?_filter_status (p : BacklogPriority) (l : List BacklogItem) :
    (l.filter fun i => i.status = .backlog).find? (fun i => i.priority = p)
      = l.find? (fun i => decide (i.priority = p) && decide (i.status = .backlog)) := by
  induction l with
  | nil => rfl
  | cons a t ih =>
    by_cases hs : a.status = BacklogStatus.backlog
    · by_cases hp : a.priority = p
      · simp [List.filter_cons, hs, hp, List.find?_cons, ih]
      · simp [List.filter_cons, hs, hp, List.find?_cons, ih]
    · by_cases hp : a.priority = p
      · simp [List.filter_cons, hs, hp, List.find?_cons, ih]
      · simp [List.filter_cons, hs, hp, List.find?_cons, ih]

/-- C7. getNextItem follows exactly the specified cascade (in_progress
first, then first backlog-status item in priority order, then first
incomplete item in priority order ignoring status, then the first
incomplete item in file order), and it answers none exactly when every
item is completed — so it is non-null whenever an incomplete item
exists. -/
theorem C7_getNextItem_cascade (backlog : List BacklogItem) :
    getNextItem backlog = specNextItem backlog
    ∧ (getNextItem backlog = none ↔ ∀ i ∈ backlog, i.completed = true) := by
  constructor
  · unfold getNextItem specNextItem
    cases hi : backlog.filter fun item => !item.completed with
    | nil => simp [hi]
    | cons a t =>
      simp only [hi, List.isEmpty_cons, Bool.false_eq_true, if_false,
        backlogPriorityOrder, List.findSome?_cons, List.findSome?_nil,
        find?_filter_status]
      cases (a :: t).find? (fun item => item.status = BacklogStatus.in_progress) with
      | some item => rfl
      | none =>
        cases (a :: t).find? (fun i =>
            decide (i.priority = BacklogPriority.critical)
              && decide (i.status = BacklogStatus.backlog)) with
        | some item => rfl
        | none =>
          cases (a :: t).find? (fun i =>
              decide (i.priority = BacklogPriority.high)
                && decide (i.status = BacklogStatus.backlog)) with
          | some item => rfl
          | none =>
            cases (a :: t).find? (fun i =>
                decide (i.priority = BacklogPriority.medium)
                  && decide (i.status = BacklogStatus.backlog)) with
            | some item => rfl
            | none =>
              cases (a :: t).find? (fun i =>
                  decide (i.priority = BacklogPriority.low)
                    && decide (i.status = BacklogStatus.backlog)) with
              | some item => rfl
              | none =>
                cases (a :: t).find? (fun i => i.priority = BacklogPriority.critical) with
                | some item => rfl
                | none =>
                  cases (a :: t).find? (fun i => i.priority = BacklogPriority.high) with
                  | some item => rfl
                  | none =>
                    cases (a :: t).find? (fun i => i.priority = BacklogPriority.medium) with
                    | some item => rfl
                    | none =>
                      cases (a :: t).find? (fun i => i.priority = BacklogPriority.low) with
                      | some item => rfl
                      | none => rfl
  · unfold getNextItem
    cases hi : backlog.filter fun item => !item.completed with
    | nil =>
      simp only [hi, List.isEmpty_nil, if_true]
      constructor
      · intro _ i hmem
        have := List.filter_eq_nil_iff.mp hi i hmem
        simpa using this
      · intro _
        trivial
    | cons a t =>
      simp only [hi, List.isEmpty_cons, Bool.false_eq_true, if_false]
      constructor
      · intro hnone
        exfalso
        cases h1 : (a :: t).find? (fun item => item.status = BacklogStatus.in_progress) with
        | some item => simp [h1] at hnone
        | none =>
          rw [h1] at hnone
          cases h2 : backlogPriorityOrder.findSome?
              (fun p => (a :: t).find? fun i =>
                decide (i.priority = p) && decide (i.status = BacklogStatus.backlog)) with
          | some item => simp [h2] at hnone
          | none =>
            rw [h2] at hnone
            cases h3 : backlogPriorityOrder.findSome?
                (fun p => (a :: t).find? fun i => i.priority = p) with
            | some item => simp [h3] at hnone
            | none =>
              rw [h3] at hnone
              simp at hnone
      · intro hall
        exfalso
        have ha : a ∈ backlog.filter fun item => !item.completed := by
          rw [hi]
          exact List.mem_cons_self a t
        have hmem := List.mem_filter.mp ha
        have hc := hall a hmem.1
        simp [hc] at hmem

/-- Every element of updateFirst p g l is an element of l or the image
under g of an element of l. -/
lemma mem_updateFirst {p : α → Bool} {g : α → α} :
    ∀ {l : List α} {x : α}, x ∈ updateFirst p g l →
      x ∈ l ∨ ∃ j, j ∈ l ∧ x = g j := by
  intro l
  induction l with
  | nil => intro x hx; simp [updateFirst] at hx
  | cons a t ih =>
    intro x hx
    rw [updateFirst] at hx
    by_cases ha : p a = true
    · rw [if_pos ha] at hx
      rcases List.mem_cons.mp hx with h | h
      · exact Or.inr ⟨a, List.mem_cons_self a t, h⟩
      · exact Or.inl (List.mem_cons_of_mem a h)
    · rw [if_neg ha] at hx
      rcases List.mem_cons.mp hx with h | h
      · exact Or.inl (h ▸ List.mem_cons_self a t)
      · rcases ih h with h1 | ⟨j, hj, hxe⟩
        · exact Or.inl (List.mem_cons_of_mem a h1)
        · exact Or.inr ⟨j, List.mem_cons_of_mem a hj, hxe⟩

/-- A field g does not change is unchanged across updateFirst. -/
lemma map_updateFirst {p : α → Bool} {g : α → α} {f : α → β}
    (hf : ∀ x, f (g x) = f x) :
    ∀ l : List α, (updateFirst p g l).map f = l.map f := by
  intro l
  induction l with
  | nil => rfl
  | cons a t ih =>
    rw [updateFirst]
    by_cases ha : p a = true
    · rw [if_pos ha]
      simp [hf]
    · rw [if_neg ha]
      simp only [List.map_cons, ih]

/-- C9 counterexample. Starting from a backlog satisfying completed == true
iff status == done, updateStatus from done to in_progress leaves completed
== true while status is no longer done: the operation does not
re-establish completed == false, so the claimed iff-invariant is broken by
an allowed operation. -/
theorem C9_counterexample_done_to_in_progress :
    (C9doneBacklog.all fun i => i.completed = decide (i.status = BacklogStatus.done)) = true
    ∧ ((updateStatus "t2" C9doneBacklog "1" .in_progress).1 = true)
    ∧ (((updateStatus "t2" C9doneBacklog "1" .in_progress).2.all
        fun i => i.completed = decide (i.status = BacklogStatus.done)) = false) := by
  refine ⟨by decide, by decide, by decide⟩

/-- C9 amended. What every operation preserves is the one-way invariant
status == done implies completed == true (updateStatus to done sets both
completed and completedDate); completed is never reset: when the new
status is not done, updateStatus leaves every item's completed flag
unchanged, so updating from done to a non-done status keeps
completed == true and the converse direction of the claimed iff fails. -/
theorem C9_amended_done_implies_completed (now newId : String)
    (backlog : List BacklogItem) (id : String) (status : BacklogStatus)
    (type description details author text reason : String)
    (priority : BacklogPriority) (github_issue : Option Int)
    (hinv : ∀ i ∈ backlog, i.status = .done → i.completed = true) :
    (∀ i ∈ addItem newId now backlog type priority description details github_issue,
        i.status = .done → i.completed = true)
    ∧ (∀ i ∈ (updateStatus now backlog id status).2,
        i.status = .done → i.completed = true)
    ∧ (∀ i ∈ (markComplete now backlog id).2,
        i.status = .done → i.completed = true)
    ∧ (∀ i ∈ (markInProgress now backlog id).2,
        i.status = .done → i.completed = true)
    ∧ (∀ i ∈ (markBlocked now backlog id reason).2,
        i.status = .done → i.completed = true)
    ∧ (∀ i ∈ (addComment now backlog id author text).2,
        i.status = .done → i.completed = true)
    ∧ (status ≠ .done →
        ((updateStatus now backlog id status).2.map fun i => i.completed)
          = backlog.map fun i => i.completed) := by
  have hupd : ∀ st : BacklogStatus, ∀ i ∈ (updateStatus now backlog id st).2,
      i.status = .done → i.completed = true := by
    intro st i hi hdone
    unfold updateStatus at hi
    cases hfind : backlog.find? (fun j => j.id = id) with
    | none =>
      rw [hfind] at hi
      exact hinv i hi hdone
    | some j0 =>
      rw [hfind] at hi
      rcases mem_updateFirst hi with h | ⟨j, hj, hie⟩
      · exact hinv i h hdone
      · by_cases hst : st = BacklogStatus.done
        · subst hst
          subst hie
          simp
        · subst hie
          simp only [if_neg hst] at hdone
          exact absurd hdone hst
  refine ⟨?_, hupd status, hupd .done, hupd .in_progress, ?_, ?_, ?_⟩
  · intro i hi hdone
    unfold addItem at hi
    rcases List.mem_append.mp hi with h | h
    · exact hinv i h hdone
    · simp only [List.mem_singleton] at h
      subst h
      simp at hdone
  · intro i hi hdone
    unfold markBlocked at hi
    cases hfind : backlog.find? (fun j => j.id = id) with
    | none =>
      rw [hfind] at hi
      exact hinv i hi hdone
    | some j0 =>
      rw [hfind] at hi
      rcases mem_updateFirst hi with h | ⟨j, hj, hie⟩
      · exact hinv i h hdone
      · subst hie
        simp at hdone
  · intro i hi hdone
    unfold addComment at hi
    cases hfind : backlog.find? (fun j => j.id = id) with
    | none =>
      rw [hfind] at hi
      exact hinv i hi hdone
    | some j0 =>
      rw [hfind] at hi
      rcases mem_updateFirst hi with h | ⟨j, hj, hie⟩
      · exact hinv i h hdone
      · subst hie
        exact hinv j hj hdone
  · intro hst
    unfold updateStatus
    cases hfind : backlog.find? (fun j => j.id = id) with
    | none => rfl
    | some j0 =>
      exact map_updateFirst (fun x => by simp [if_neg hst]) backlog

/-- C9 witness: the amended theorem applied to the concrete done-item
backlog, showing the non-done update keeps the completed flags. -/
theorem C9_amended_witness :
    ((updateStatus "t2" C9doneBacklog "1" BacklogStatus.in_progress).2.map
      fun i => i.completed) = C9doneBacklog.map fun i => i.completed :=
  (C9_amended_done_implies_completed "t2" "9" C9doneBacklog "1"
    BacklogStatus.in_progress "bug" "d" "" "agent" "txt" "r" BacklogPriority.high
    none (by decide)).2.2.2.2.2.2 (by decide)

lemma executeStep1_step (o : Step1Outcome) : (executeStep1 o).step = 1 := by
  cases o <;> rfl

lemma executeStep2_step (l : Except String FeatureList) :
    (executeStep2 l).1.step = 2 := by
  unfold executeStep2
  split
  · rfl
  · split <;> rfl

lemma executeStep4_success (tr : TestPhaseResult) :
    (executeStep4 tr).success = tr.allPassed := by
  unfold executeStep4
  cases htr : tr.allPassed <;> simp [htr]

lemma countStep_append (n : Nat) (l1 l2 : List StepResult) :
    countStep n (l1 ++ l2) = countStep n l1 + countStep n l2 := by
  simp [countStep, List.filter_append]

lemma countStep3_s3 (fid : Option String) (i : Nat) :
    countStep 3 [executeStep3 fid i] = 1 := rfl

lemma countStep4_s3 (fid : Option String) (i : Nat) :
    countStep 4 [executeStep3 fid i] = 0 := rfl

lemma countStep3_s4 (tr : TestPhaseResult) :
    countStep 3 [executeStep4 tr] = 0 := by
  unfold executeStep4
  split <;> rfl

lemma countStep4_s4 (tr : TestPhaseResult) :
    countStep 4 [executeStep4 tr] = 1 := by
  unfold executeStep4
  split <;> rfl

lemma countStep_pair_of_ne (n : Nat) (a b : StepResult)
    (ha : a.step ≠ n) (hb : b.step ≠ n) : countStep n [a, b] = 0 := by
  simp [countStep, List.filter_cons, ha, hb]

lemma countStep_single_of_ne (n : Nat) (a : StepResult)
    (ha : a.step ≠ n) : countStep n [a] = 0 := by
  simp [countStep, List.filter_cons, ha]

/-- The code/verify loop can add at most fuel step-3 records and at most
fuel step-4 records to the accumulator. -/
lemma workflowLoop_bound (verify : Nat → TestPhaseResult) (fid : Option String) :
    ∀ (fuel iterations : Nat) (steps : List StepResult),
      countStep 3 (workflowLoop verify fid fuel iterations steps).2.2
          ≤ countStep 3 steps + fuel
      ∧ countStep 4 (workflowLoop verify fid fuel iterations steps).2.2
          ≤ countStep 4 steps + fuel := by
  intro fuel
  induction fuel with
  | zero =>
    intro iterations steps
    constructor <;> simp [workflowLoop]
  | succ n ih =>
    intro iterations steps
    rw [workflowLoop, if_neg (by simp [executeStep3])]
    by_cases h4 : (executeStep4 (verify (iterations + 1))).success = true
    · rw [if_pos h4]
      constructor
      · rw [countStep_append, countStep_append, countStep3_s3, countStep3_s4]
        omega
      · rw [countStep_append, countStep_append, countStep4_s3, countStep4_s4]
        omega
    · rw [if_neg h4]
      obtain ⟨h3b, h4b⟩ := ih (iterations + 1)
        (steps ++ [executeStep3 fid (iterations + 1)]
          ++ [executeStep4 (verify (iterations + 1))])
      rw [countStep_append, countStep_append, countStep3_s3, countStep3_s4] at h3b
      rw [countStep_append, countStep_append, countStep4_s3, countStep4_s4] at h4b
      constructor <;> omega

/-- When the test phase fails on every iteration, the loop exhausts its
fuel: it reports failure, runs exactly fuel cycles and appends exactly
fuel step-3 and fuel step-4 records. -/
lemma workflowLoop_all_fail (verify : Nat → TestPhaseResult) (fid : Option String)
    (hv : ∀ i, (verify i).allPassed = false) :
    ∀ (fuel iterations : Nat) (steps : List StepResult),
      (workflowLoop verify fid fuel iterations steps).1 = false
      ∧ (workflowLoop verify fid fuel iterations steps).2.1 = iterations + fuel
      ∧ countStep 3 (workflowLoop verify fid fuel iterations steps).2.2
          = countStep 3 steps + fuel
      ∧ countStep 4 (workflowLoop verify fid fuel iterations steps).2.2
          = countStep 4 steps + fuel
      ∧ (workflowLoop verify fid fuel iterations steps).2.2.length
          = steps.length + 2 * fuel := by
  intro fuel
  induction fuel with
  | zero =>
    intro iterations steps
    exact ⟨rfl, by simp [workflowLoop], by simp [workflowLoop],
      by simp [workflowLoop], by simp [workflowLoop]⟩
  | succ n ih =>
    intro iterations steps
    rw [workflowLoop, if_neg (by simp [executeStep3]),
      if_neg (by simp [executeStep4_success, hv])]
    obtain ⟨ha, hb, hc, hd, he⟩ := ih (iterations + 1)
      (steps ++ [executeStep3 fid (iterations + 1)]
        ++ [executeStep4 (verify (iterations + 1))])
    rw [countStep_append, countStep_append, countStep3_s3, countStep3_s4] at hc
    rw [countStep_append, countStep_append, countStep4_s3, countStep4_s4] at hd
    simp only [List.length_append, List.length_singleton] at he
    exact ⟨ha, by omega, by omega, by omega, by omega⟩

/-- C4. The code/verify loop never runs more than the context's
maxIterations cycles: the step records carry at most maxIterations code
entries and at most maxIterations verify entries; and in the scenario
where steps 1 and 2 succeed, every verification fails and the cap is 3,
the result is failure with iterations = 3 and exactly 3 code entries,
3 verify entries and 8 step records in all (init and select included) -
returned normally, no exception path exists. -/
theorem C4_workflow_iteration_cap (env : WorkflowEnv) (ctx : WorkflowContext) :
    (countStep 3 (executeWorkflow env ctx).steps ≤ ctx.maxIterations
      ∧ countStep 4 (executeWorkflow env ctx).steps ≤ ctx.maxIterations)
    ∧ ((executeStep1 env.step1).success = true →
      (executeStep2 env.loaded).1.success = true →
      (∀ i, (env.verify i).allPassed = false) →
      ctx.maxIterations = 3 →
        (executeWorkflow env ctx).success = false
        ∧ (executeWorkflow env ctx).iterations = 3
        ∧ countStep 3 (executeWorkflow env ctx).steps = 3
        ∧ countStep 4 (executeWorkflow env ctx).steps = 3
        ∧ (executeWorkflow env ctx).steps.length = 8) := by
  have hi3 : countStep 3 [executeStep1 env.step1, (executeStep2 env.loaded).1] = 0 :=
    countStep_pair_of_ne 3 _ _ (by rw [executeStep1_step]; omega)
      (by rw [executeStep2_step]; omega)
  have hi4 : countStep 4 [executeStep1 env.step1, (executeStep2 env.loaded).1] = 0 :=
    countStep_pair_of_ne 4 _ _ (by rw [executeStep1_step]; omega)
      (by rw [executeStep2_step]; omega)
  constructor
  · unfold executeWorkflow
    by_cases h1 : (executeStep1 env.step1).success = false
    · rw [if_pos h1]
      have ha : countStep 3 [executeStep1 env.step1] = 0 :=
        countStep_single_of_ne 3 _ (by rw [executeStep1_step]; omega)
      have hb : countStep 4 [executeStep1 env.step1] = 0 :=
        countStep_single_of_ne 4 _ (by rw [executeStep1_step]; omega)
      constructor
      · show countStep 3 [executeStep1 env.step1] ≤ ctx.maxIterations
        rw [ha]
        exact Nat.zero_le _
      · show countStep 4 [executeStep1 env.step1] ≤ ctx.maxIterations
        rw [hb]
        exact Nat.zero_le _
    · rw [if_neg h1]
      by_cases h2 : (executeStep2 env.loaded).1.success = false
      · rw [if_pos h2]
        constructor
        · show countStep 3 [executeStep1 env.step1, (executeStep2 env.loaded).1]
            ≤ ctx.maxIterations
          rw [hi3]
          exact Nat.zero_le _
        · show countStep 4 [executeStep1 env.step1, (executeStep2 env.loaded).1]
            ≤ ctx.maxIterations
          rw [hi4]
          exact Nat.zero_le _
      · rw [if_neg h2]
        obtain ⟨h3b, h4b⟩ := workflowLoop_bound env.verify (executeStep2 env.loaded).2
          ctx.maxIterations 0 [executeStep1 env.step1, (executeStep2 env.loaded).1]
        rw [hi3] at h3b
        rw [hi4] at h4b
        constructor
        · show countStep 3 (workflowLoop env.verify (executeStep2 env.loaded).2
            ctx.maxIterations 0
            [executeStep1 env.step1, (executeStep2 env.loaded).1]).2.2
              ≤ ctx.maxIterations
          omega
        · show countStep 4 (workflowLoop env.verify (executeStep2 env.loaded).2
            ctx.maxIterations 0
            [executeStep1 env.step1, (executeStep2 env.loaded).1]).2.2
              ≤ ctx.maxIterations
          omega
  · intro h1 h2 hv hmax
    unfold executeWorkflow
    rw [if_neg (by simp [h1]), if_neg (by simp [h2]), hmax]
    obtain ⟨ha, hb, hc, hd, he⟩ := workflowLoop_all_fail env.verify
      (executeStep2 env.loaded).2 hv 3 0
      [executeStep1 env.step1, (executeStep2 env.loaded).1]
    rw [hi3] at hc
    rw [hi4] at hd
    exact ⟨ha, hb, hc, hd, he⟩

/-- C5. The constructor's maxIterations argument is ignored: the stored
context always carries maxIterations = 3, and an engine constructed with
maxIterations = 1 whose verifications all fail still runs 3 code/verify
cycles instead of the requested 1. -/
theorem C5_maxIterations_parameter_ignored :
    (∀ sessionId m, (mkEngineContext sessionId m).maxIterations = 3)
    ∧ (mkEngineContext "session-1" 1).maxIterations = 3
    ∧ (executeWorkflow C5env (mkEngineContext "session-1" 1)).iterations = 3
    ∧ countStep 3 (executeWorkflow C5env (mkEngineContext "session-1" 1)).steps = 3
    ∧ countStep 4 (executeWorkflow C5env (mkEngineContext "session-1" 1)).steps = 3
    ∧ (executeWorkflow C5env (mkEngineContext "session-1" 1)).success = false := by
  refine ⟨fun _ _ => rfl, rfl, ?_, ?_, ?_, ?_⟩ <;> decide

end LRA
